import Mathlib

/-!
Verification development for the MongoDB query-compilation backend
(django_mongodb_backend): a shallow embedding of the pipeline assembler
(query.py, MongoQuery.get_pipeline), boolean tree lowering (query.py,
where_node), the XOR parity rewrite, join lowering (query.py, join), the
null-test and ordering-comparison operators (base.py), the index condition
translator (indexes.py), and the nested-transaction coordinator
(transaction.py Atomic together with the transaction API of base.py).

MQL fragments (Python dicts/lists sent to the driver) are modelled by the
inductive type MQL below.  Documents are association lists, preserving key
order exactly as Python dicts do.  A small evaluator for the aggregation
expression operators actually emitted by the backend, and one for the
find/match (path mode) query documents, model the semantics of the target
store; both are partial (Option), returning none on shapes they do not
cover.
-/

namespace DjangoMongo

/-- Wire-format values: the BSON-like fragments the compiler emits. -/
inductive MQL where
  | str (s : String)
  | int (n : Int)
  | null
  | bool (b : Bool)
  | doc (fields : List (String × MQL))
  | arr (xs : List MQL)
  deriving Repr

/-- A document is an ordered list of key/value pairs, like a Python dict. -/
abbrev Doc := List (String × MQL)

mutual

/-- Structural boolean equality on MQL values. -/
def MQL.beq : MQL → MQL → Bool
  | .str a, .str b => a == b
  | .int a, .int b => a == b
  | .null, .null => true
  | .bool a, .bool b => a == b
  | .doc fs, .doc gs => MQL.beqFields fs gs
  | .arr xs, .arr ys => MQL.beqArr xs ys
  | _, _ => false

def MQL.beqFields : List (String × MQL) → List (String × MQL) → Bool
  | [], [] => true
  | (k, v) :: fs, (k2, v2) :: gs => k == k2 && MQL.beq v v2 && MQL.beqFields fs gs
  | _, _ => false

def MQL.beqArr : List MQL → List MQL → Bool
  | [], [] => true
  | x :: xs, y :: ys => MQL.beq x y && MQL.beqArr xs ys
  | _, _ => false

end

/-- Python truthiness of an MQL value: empty dict, empty list, empty string,
zero, None and False are falsy. -/
def MQL.truthy : MQL → Bool
  | .str s => !s.isEmpty
  | .int n => n != 0
  | .null => false
  | .bool b => b
  | .doc fields => !fields.isEmpty
  | .arr xs => !xs.isEmpty

/-- Fetch a top-level field of a document. -/
def getField : Doc → String → Option MQL
  | [], _ => none
  | (k, v) :: rest, name => if k = name then some v else getField rest name

/-- Set a top-level field of a document, replacing it in place when present
and appending it otherwise. -/
def setField : Doc → String → MQL → Doc
  | [], name, v => [(name, v)]
  | (k, w) :: rest, name, v =>
    if k = name then (k, v) :: rest else (k, w) :: setField rest name v

/-- Result of evaluating an aggregation expression: the target store
distinguishes a missing field from every value, including explicit null. -/
inductive AggRes where
  | missing
  | val (v : MQL)
  deriving Repr

/-- Resolve a field reference against a document. -/
def refRes (d : Doc) (name : String) : AggRes :=
  match getField d name with
  | none => .missing
  | some v => .val v

/-- Name returned by the aggregation type operator; only the distinction
between "missing" and everything else matters to the compiled fragments. -/
def typeName : AggRes → String
  | .missing => "missing"
  | .val .null => "null"
  | .val (.str _) => "string"
  | .val (.int _) => "long"
  | .val (.bool _) => "bool"
  | .val (.doc _) => "object"
  | .val (.arr _) => "array"

/-- Missing and explicit null are identified by aggregation comparisons. -/
def aggNullish : AggRes → Bool
  | .missing => true
  | .val .null => true
  | _ => false

/-- Aggregation equality: missing and null compare equal to each other. -/
def aggEq (a b : AggRes) : Bool :=
  if aggNullish a || aggNullish b then aggNullish a && aggNullish b
  else
    match a, b with
    | .val x, .val y => MQL.beq x y
    | _, _ => false

/-- BSON type rank used by aggregation ordering: null (and missing) sorts
below all other values. -/
def aggRank : AggRes → Nat
  | .missing => 0
  | .val .null => 0
  | .val (.int _) => 1
  | .val (.str _) => 2
  | .val (.doc _) => 3
  | .val (.arr _) => 4
  | .val (.bool _) => 5

/-- Aggregation strict order: ranks first, then value order inside a rank. -/
def aggLtB (a b : AggRes) : Bool :=
  if aggRank a != aggRank b then aggRank a < aggRank b
  else
    match a, b with
    | .val (.int x), .val (.int y) => x < y
    | .val (.str x), .val (.str y) => x < y
    | _, _ => false

def aggLeB (a b : AggRes) : Bool := aggLtB a b || aggEq a b

/-- Truthiness used by the aggregation boolean operators. -/
def aggTruthy : AggRes → Bool
  | .missing => false
  | .val .null => false
  | .val (.bool b) => b
  | .val (.int n) => n != 0
  | _ => true

/-- Whether a key names an operator: its first character is a dollar sign. -/
def isDollarKey (k : String) : Bool :=
  match k.data with
  | '$' :: _ => true
  | _ => false

/-- Convert a list of results to plain values; a missing entry is an error. -/
def aggVals : List AggRes → Option (List MQL)
  | [] => some []
  | .val v :: rest => (aggVals rest).map (fun vs => v :: vs)
  | .missing :: _ => none

mutual

/-- Evaluator for the aggregation expression subset emitted by the backend:
field references, literals, type, size, not, or, and, cond, and the
comparison operators.  Returns none on unsupported shapes. -/
def evalAgg (d : Doc) : MQL → Option AggRes
  | .str s =>
    match s.data with
    | '$' :: rest => some (refRes d (String.mk rest))
    | _ => some (.val (.str s))
  | .int n => some (.val (.int n))
  | .null => some (.val .null)
  | .bool b => some (.val (.bool b))
  | .arr xs =>
    match evalAggList d xs with
    | some rs => (aggVals rs).map (fun vs => AggRes.val (.arr vs))
    | none => none
  | .doc [] => some (.val (.doc []))
  | .doc [(k, arg)] =>
    if k = "$type" then (evalAgg d arg).map (fun r => .val (.str (typeName r)))
    else if k = "$size" then
      match evalAgg d arg with
      | some (.val (.arr xs)) => some (.val (.int xs.length))
      | _ => none
    else if k = "$not" then
      match arg with
      | .arr [x] => (evalAgg d x).map (fun r => .val (.bool (!aggTruthy r)))
      | .arr _ => none
      | x => (evalAgg d x).map (fun r => .val (.bool (!aggTruthy r)))
    else if k = "$or" then
      match arg with
      | .arr xs => (evalAggOr d xs).map (fun b => .val (.bool b))
      | _ => none
    else if k = "$and" then
      match arg with
      | .arr xs => (evalAggAnd d xs).map (fun b => .val (.bool b))
      | _ => none
    else if k = "$eq" then
      match arg with
      | .arr [x, y] =>
        match evalAgg d x, evalAgg d y with
        | some a, some b => some (.val (.bool (aggEq a b)))
        | _, _ => none
      | _ => none
    else if k = "$ne" then
      match arg with
      | .arr [x, y] =>
        match evalAgg d x, evalAgg d y with
        | some a, some b => some (.val (.bool (!aggEq a b)))
        | _, _ => none
      | _ => none
    else if k = "$lt" then
      match arg with
      | .arr [x, y] =>
        match evalAgg d x, evalAgg d y with
        | some a, some b => some (.val (.bool (aggLtB a b)))
        | _, _ => none
      | _ => none
    else if k = "$lte" then
      match arg with
      | .arr [x, y] =>
        match evalAgg d x, evalAgg d y with
        | some a, some b => some (.val (.bool (aggLeB a b)))
        | _, _ => none
      | _ => none
    else if k = "$gt" then
      match arg with
      | .arr [x, y] =>
        match evalAgg d x, evalAgg d y with
        | some a, some b => some (.val (.bool (aggLtB b a)))
        | _, _ => none
      | _ => none
    else if k = "$gte" then
      match arg with
      | .arr [x, y] =>
        match evalAgg d x, evalAgg d y with
        | some a, some b => some (.val (.bool (aggLeB b a)))
        | _, _ => none
      | _ => none
    else if k = "$cond" then
      match arg with
      | .doc [("if", i), ("then", t), ("else", e)] =>
        match evalAgg d i with
        | some c => if aggTruthy c then evalAgg d t else evalAgg d e
        | none => none
      | _ => none
    else if isDollarKey k then none
    else
      match evalAgg d arg with
      | some (.val v) => some (.val (.doc [(k, v)]))
      | _ => none
  | .doc (_ :: _ :: _) => none

def evalAggList (d : Doc) : List MQL → Option (List AggRes)
  | [] => some []
  | x :: xs =>
    match evalAgg d x, evalAggList d xs with
    | some a, some rest' => some (a :: rest')
    | _, _ => none

/-- The $or operator short-circuits: operands are evaluated left to right
and evaluation stops at the first truthy one. -/
def evalAggOr (d : Doc) : List MQL → Option Bool
  | [] => some false
  | x :: xs =>
    match evalAgg d x with
    | some r => if aggTruthy r then some true else evalAggOr d xs
    | none => none

/-- The $and operator short-circuits at the first falsy operand. -/
def evalAggAnd (d : Doc) : List MQL → Option Bool
  | [] => some true
  | x :: xs =>
    match evalAgg d x with
    | some r => if aggTruthy r then evalAggAnd d xs else some false
    | none => none

end

/-- State of one field of a stored document: absent, explicit null, or an
integer value (the value universe used by the semantic theorems). -/
inductive FieldVal where
  | absent
  | null
  | intVal (n : Int)
  deriving Repr, DecidableEq

/-- Whether a find-mode equality against null matches the field state: the
store's null equality matches both absent fields and explicit nulls. -/
def eqMatchNull : FieldVal → Bool
  | .absent => true
  | .null => true
  | .intVal _ => false

/-- Find-mode equality of a field state against a constant. -/
def fieldEqB (fv : FieldVal) : MQL → Option Bool
  | .null => some (eqMatchNull fv)
  | .int m =>
    some (match fv with
          | .intVal n => n == m
          | _ => false)
  | _ => none

/-- Find-mode (path mode) evaluation of a single-field condition document.
Comparison operators use type bracketing: an integer bound never matches a
null or absent field. -/
def evalFieldCond (fv : FieldVal) : MQL → Option Bool
  | .null => some (eqMatchNull fv)
  | .int m =>
    some (match fv with
          | .intVal n => n == m
          | _ => false)
  | .doc [(k, v)] =>
    if k = "$exists" then
      match v with
      | .bool b => some ((fv != .absent) == b)
      | _ => none
    else if k = "$eq" then fieldEqB fv v
    else if k = "$ne" then (fieldEqB fv v).map (fun b => !b)
    else if k = "$lt" then
      match v with
      | .int m =>
        some (match fv with
              | .intVal n => n < m
              | _ => false)
      | _ => none
    else if k = "$lte" then
      match v with
      | .int m =>
        some (match fv with
              | .intVal n => n ≤ m
              | _ => false)
      | _ => none
    else if k = "$gt" then
      match v with
      | .int m =>
        some (match fv with
              | .intVal n => m < n
              | _ => false)
      | _ => none
    else if k = "$gte" then
      match v with
      | .int m =>
        some (match fv with
              | .intVal n => m ≤ n
              | _ => false)
      | _ => none
    else none
  | _ => none

mutual

/-- Find-mode (path mode) evaluation of a match document over a single
tracked field f in state fv.  Top-level $and and $or combine recursively;
a plain key equal to f is a condition on the tracked field. -/
def evalPathQuery (f : String) (fv : FieldVal) : MQL → Option Bool
  | .doc [(k, cond)] =>
    if isDollarKey k then
      if k = "$and" then
        match cond with
        | .arr qs => (evalPathList f fv qs).map (fun bs => bs.all id)
        | _ => none
      else if k = "$or" then
        match cond with
        | .arr qs => (evalPathList f fv qs).map (fun bs => bs.any id)
        | _ => none
      else none
    else if k = f then evalFieldCond fv cond
    else none
  | _ => none

def evalPathList (f : String) (fv : FieldVal) : List MQL → Option (List Bool)
  | [] => some []
  | q :: qs =>
    match evalPathQuery f fv q, evalPathList f fv qs with
    | some b, some bs => some (b :: bs)
    | _, _ => none

end

/-! Operators from base.py (DatabaseWrapper). -/

/-- Lowering of the null test in path mode, from
DatabaseWrapper._isnull_operator: isnull=True compiles to
(field absent OR field explicitly null); isnull=False compiles to the
conjunction (field exists AND field not null). -/
def isnull_operator (field : String) (is_null : Bool) : MQL :=
  if is_null then
    .doc [("$or", .arr [.doc [(field, .doc [("$exists", .bool false)])],
                        .doc [(field, .null)]])]
  else
    .doc [("$and", .arr [.doc [(field, .doc [("$exists", .bool true)])],
                         .doc [(field, .doc [("$ne", .null)])]])]

/-- Lowering of the null test in expression mode, from
DatabaseWrapper._isnull_expr: the disjunction of a missing-type test and an
equality with null; isnull=False wraps the same disjunction in $not. -/
def isnull_expr (field : MQL) (is_null : Bool) : MQL :=
  let mql := MQL.doc [("$or", .arr [
      .doc [("$eq", .arr [.doc [("$type", field)], .str "missing"])],
      .doc [("$eq", .arr [field, .null])]])]
  if is_null then mql else .doc [("$not", mql)]

/-- Path-mode less-than, from DatabaseWrapper.mongo_operators: the raw
comparison conjoined with the not-null guard. -/
def mongo_lt (a : String) (b : MQL) : MQL :=
  .doc [("$and", .arr [.doc [(a, .doc [("$lt", b)])], isnull_operator a false])]

/-- Path-mode less-than-or-equal, from DatabaseWrapper.mongo_operators. -/
def mongo_lte (a : String) (b : MQL) : MQL :=
  .doc [("$and", .arr [.doc [(a, .doc [("$lte", b)])], isnull_operator a false])]

/-- Expression-mode less-than, from DatabaseWrapper.mongo_expr_operators. -/
def mongo_expr_lt (a b : MQL) : MQL :=
  .doc [("$and", .arr [.doc [("$lt", .arr [a, b])], isnull_expr a false])]

/-- Expression-mode less-than-or-equal, from
DatabaseWrapper.mongo_expr_operators. -/
def mongo_expr_lte (a b : MQL) : MQL :=
  .doc [("$and", .arr [.doc [("$lte", .arr [a, b])], isnull_expr a false])]

/-- Document with the single tracked field f in state fv; used to connect
the expression-mode evaluator with field states. -/
def docOf (f : String) : FieldVal → Doc
  | .absent => []
  | .null => [(f, .null)]
  | .intVal n => [(f, .int n)]

/-- Whether a field state satisfies the relational NULL test. -/
def isNullState : FieldVal → Bool
  | .absent => true
  | .null => true
  | .intVal _ => false

/-! Boolean tree lowering from query.py (where_node).  At one node, each
child's compilation has one of three outcomes: it raises EmptyResultSet, it
raises FullResultSet, or it returns an MQL fragment (possibly falsy).  The
XOR connector never reaches the counter loop: it is rewritten first (lines
310 to 327 of query.py, modelled separately below), so the loop only ever
runs for AND and OR. -/

/-- Outcome of compiling one child of a WhereNode. -/
inductive ChildOutcome where
  | empty
  | full
  | frag (m : MQL)
  deriving Repr

/-- The two non-local control signals of the compiler. -/
inductive Signal where
  | emptyRS
  | fullRS
  deriving Repr, DecidableEq

/-- Connectors that reach the counter loop of where_node. -/
inductive ACConnector where
  | AND
  | OR
  deriving Repr, DecidableEq

/-- MQL combinator name for a connector. -/
def connOp : ACConnector → String
  | .AND => "$and"
  | .OR => "$or"

/-- The child loop of where_node: children are compiled left to right while
the two counters count down; a counter reaching zero aborts with the
corresponding signal, polarity-swapped when the node is negated. -/
def whereLoop (negated : Bool) : Nat → Nat → List MQL → List ChildOutcome →
    Except Signal (List MQL)
  | _, _, acc, [] => .ok acc
  | full_needed, empty_needed, acc, c :: cs =>
    let st :=
      match c with
      | .empty => (full_needed, empty_needed - 1, acc)
      | .full => (full_needed - 1, empty_needed, acc)
      | .frag m =>
        if m.truthy then (full_needed, empty_needed, acc ++ [m])
        else (full_needed - 1, empty_needed, acc)
    if st.2.1 = 0 then .error (if negated then .fullRS else .emptyRS)
    else if st.1 = 0 then .error (if negated then .emptyRS else .fullRS)
    else whereLoop negated st.1 st.2.1 st.2.2 cs

/-- Combining step of where_node after the child loop: a single surviving
fragment is returned alone, several are joined under the connector, none
collapse to the empty document; a falsy combined fragment raises
FullResultSet, and a negated node wraps the fragment in $not (expression
mode) or $nor (path mode). -/
def whereCombine (conn : ACConnector) (negated as_expr : Bool)
    (kept : List MQL) : Except Signal MQL :=
  let mql :=
    match kept with
    | [m] => m
    | [] => MQL.doc []
    | ms => MQL.doc [(connOp conn, MQL.arr ms)]
  if !mql.truthy then .error .fullRS
  else .ok (if negated then
              MQL.doc [((if as_expr then "$not" else "$nor"), MQL.arr [mql])]
            else mql)

/-- Lowering of one AND/OR WhereNode, from query.py where_node: the counters
are initialized from the connector alone (full_needed is the child count for
AND and 1 for OR; empty_needed is 1 for AND and the child count for OR),
then the child loop and the combining step run. -/
def where_node_src (conn : ACConnector) (negated as_expr : Bool)
    (children : List ChildOutcome) : Except Signal MQL :=
  let full_needed := match conn with | .AND => children.length | .OR => 1
  let empty_needed := match conn with | .AND => 1 | .OR => children.length
  match whereLoop negated full_needed empty_needed [] children with
  | .error s => .error s
  | .ok kept => whereCombine conn negated as_expr kept

/-- State of the claimed counter algorithm: the two counters and the kept
child fragments. -/
structure WNState where
  full_needed : Nat
  empty_needed : Nat
  kept : List MQL

/-- One step of the counter algorithm as the spec describes it: decrement
empty_needed on an ALWAYS-FALSE child, decrement full_needed on an
ALWAYS-TRUE child (dropping it) or on a child compiling to a falsy fragment,
and abort with the polarity-adjusted signal when a counter reaches zero. -/
def wnStep (negated : Bool) (s : WNState) (c : ChildOutcome) :
    Except Signal WNState :=
  let s' :=
    match c with
    | .empty => { s with empty_needed := s.empty_needed - 1 }
    | .full => { s with full_needed := s.full_needed - 1 }
    | .frag m =>
      if m.truthy then { s with kept := s.kept ++ [m] }
      else { s with full_needed := s.full_needed - 1 }
  if s'.empty_needed = 0 then .error (if negated then .fullRS else .emptyRS)
  else if s'.full_needed = 0 then .error (if negated then .emptyRS else .fullRS)
  else .ok s'

/-- Modelled from the spec: the claimed initialization of full_needed, "1
for AND-negated-or-OR parents and the full child count otherwise". -/
def claimFullInit (conn : ACConnector) (negated : Bool) (n : Nat) : Nat :=
  if (conn = .AND && negated) || conn = .OR then 1 else n

/-- Modelled from the spec: the claimed initialization of empty_needed,
symmetric to claimFullInit. -/
def claimEmptyInit (conn : ACConnector) (negated : Bool) (n : Nat) : Nat :=
  if (conn = .OR && negated) || conn = .AND then 1 else n

/-- Modelled from the spec: where_node as claim C3 literally states it, with
the counter initialization depending on negation. -/
def where_node_claim (conn : ACConnector) (negated as_expr : Bool)
    (children : List ChildOutcome) : Except Signal MQL := do
  let s ← children.foldlM (wnStep negated)
    ⟨claimFullInit conn negated children.length,
     claimEmptyInit conn negated children.length, []⟩
  whereCombine conn negated as_expr s.kept

/-- The counter algorithm with the initialization the code actually uses:
full_needed is the child count for AND and 1 for OR, empty_needed is
symmetric, and negation is not consulted for the initialization. -/
def where_node_amended (conn : ACConnector) (negated as_expr : Bool)
    (children : List ChildOutcome) : Except Signal MQL := do
  let s ← children.foldlM (wnStep negated)
    ⟨(match conn with | .AND => children.length | .OR => 1),
     (match conn with | .AND => 1 | .OR => children.length), []⟩
  whereCombine conn negated as_expr s.kept

/-! The XOR parity rewrite from query.py where_node, lines 310 to 327: an
n-ary XOR of operands a, b, c, ... becomes
(a OR b OR c OR ...) AND Exact(1, sum of Case(When(c, then=1), default=0)),
with the sum wrapped in Mod(_, 2) only when there are more than two
operands.  To study the truth table the operands are taken as booleans
(the truth value of each child on the document under consideration). -/

/-- Numeric expression built by the XOR rewrite: Case(When(c, then=1),
default=0) terms, sums, and Mod(_, 2). -/
inductive NumExpr where
  | case1 (c : Bool)
  | add (a b : NumExpr)
  | mod2 (a : NumExpr)
  deriving Repr

/-- Integer value of a rewrite expression. -/
def NumExpr.eval : NumExpr → Int
  | .case1 c => if c then 1 else 0
  | .add a b => a.eval + b.eval
  | .mod2 a => a.eval % 2

/-- Whether a Mod appears anywhere in the expression. -/
def NumExpr.hasMod : NumExpr → Bool
  | .case1 _ => false
  | .add a b => a.hasMod || b.hasMod
  | .mod2 _ => true

/-- Python reduce with the add operator over a nonempty sequence: a left
fold starting from the first element. -/
def reduceAdd : List NumExpr → Option NumExpr
  | [] => none
  | x :: xs => some (xs.foldl NumExpr.add x)

/-- The two conjuncts the rewrite produces: the OR of all operands and the
Exact(1, sum) parity test. -/
structure XorLowered where
  orOperands : List Bool
  parityExpr : NumExpr
  deriving Repr

/-- The XOR rewrite from where_node: build the OR of the children and the
sum of their Case terms, wrapping the sum in Mod(_, 2) only when there are
more than two children. -/
def xor_rewrite (children : List Bool) : Option XorLowered :=
  match reduceAdd (children.map NumExpr.case1) with
  | none => none
  | some s =>
    some ⟨children, if children.length > 2 then .mod2 s else s⟩

/-- Truth value of the rewritten node: the AND of the OR-tree and the
Exact(1, sum) comparison, negated when the original XOR node was negated. -/
def XorLowered.evalAsWhere (negated : Bool) (x : XorLowered) : Bool :=
  let v := (x.orOperands.any id) && (x.parityExpr.eval == 1)
  if negated then !v else v

/-- Direct truth-table value of an n-ary XOR: true iff an odd number of
operands are true, negated when the node is negated. -/
def xorTruth (negated : Bool) (children : List Bool) : Bool :=
  let p := (children.count true) % 2 == 1
  if negated then !p else p

/-! Join lowering from query.py (the join function registered on
django.db.models.sql.datastructures.Join).  One joining field pair either
takes the fast path (a foreign key with simple columns on both sides,
producing localField/foreignField) or contributes a compiled
expression pair to the let-bound generic path.  Extra restrictions and the
pushed-down filter are taken as already-compiled MQL fragments (the
rerooting of column references happens during their compilation and is
orthogonal to what is proved here). -/

/-- Kind of a join: INNER or LEFT OUTER (LOUTER). -/
inductive JoinType where
  | inner
  | louter
  deriving Repr, DecidableEq

/-- One pair of joining fields, already prepared: either the
localField/foreignField fast path or a pair of compiled expressions. -/
inductive JoinPair where
  | fk (localF foreignF : String)
  | expr (l r : MQL)
  deriving Repr

/-- A join descriptor as the join function consumes it. -/
structure JoinSpec where
  table_name : String
  table_alias : String
  join_type : JoinType
  join_fields : List JoinPair
  extra_condition : Option MQL

/-- The loop over join_fields: expression pairs accumulate into lhs_fields
and rhs_fields, a foreign-key pair sets local_field and foreign_field
(the last one winning, as in the source loop). -/
def joinFieldsFold (pairs : List JoinPair) :
    List MQL × List MQL × Option String × Option String :=
  pairs.foldl
    (fun acc pair =>
      match pair with
      | .fk lf ff => (acc.1, acc.2.1, some lf, some ff)
      | .expr l r => (acc.1 ++ [l], acc.2.1 ++ [r], acc.2.2.1, acc.2.2.2))
    ([], [], none, none)

/-- The equality conditions over the let-bound parent fields:
an $expr containing the AND of parent__field__i = rhs_field comparisons. -/
def rhsEqCondition (rhs_fields : List MQL) : MQL :=
  .doc [("$expr", .doc [("$and", .arr (rhs_fields.enum.map
    (fun p => MQL.doc [("$eq",
      .arr [.str ("$$parent__field__" ++ toString p.1), p.2])])))])]

/-- All conditions of the join's internal $match stage: the field-pair
equalities, then the extra restriction, then the pushed-down filter -- the
latter only for INNER joins. -/
def joinConditions (j : JoinSpec) (pushed_filter_expression : Option MQL) :
    List MQL :=
  let folded := joinFieldsFold j.join_fields
  (if folded.2.1.isEmpty then [] else [rhsEqCondition folded.2.1])
  ++ (match j.extra_condition with
      | some e => [e]
      | none => [])
  ++ (match pushed_filter_expression, j.join_type with
      | some p, .inner => [p]
      | _, _ => [])

/-- The sub-pipeline inside the $lookup: empty without conditions, a single
$match for one condition, a $match over $and for several. -/
def joinSubPipeline (j : JoinSpec) (p : Option MQL) : List MQL :=
  match joinConditions j p with
  | [] => []
  | [c] => [.doc [("$match", c)]]
  | cs => [.doc [("$match", .doc [("$and", .arr cs)])]]

/-- The $lookup stage document: from/pipeline/as, the
localField/foreignField fast path when a foreign-key pair set both, and the
let bindings for the captured parent fields. -/
def joinLookupStage (j : JoinSpec) (p : Option MQL) : MQL :=
  let folded := joinFieldsFold j.join_fields
  .doc ([("from", .str j.table_name),
         ("pipeline", .arr (joinSubPipeline j p)),
         ("as", .str j.table_alias)]
    ++ (match folded.2.2.1, folded.2.2.2 with
        | some lf, some ff => [("localField", .str lf), ("foreignField", .str ff)]
        | _, _ => [])
    ++ (if folded.1.isEmpty then []
        else [("let", .doc (folded.1.enum.map
                (fun q => ("parent__field__" ++ toString q.1, q.2))))]))

/-- The $set stage appended after the $lookup for non-INNER joins: replace a
missing or empty matched array by a one-element array holding an empty
document, so that $unwind keeps one row per unmatched outer row. -/
def louterSetStage (alias' : String) : MQL :=
  .doc [("$set", .doc [(alias', .doc [("$cond", .doc [
    ("if", .doc [("$or", .arr [
      .doc [("$eq", .arr [.doc [("$type", .str ("$" ++ alias'))], .str "missing"])],
      .doc [("$eq", .arr [.doc [("$size", .str ("$" ++ alias'))], .int 0])]])]),
    ("then", .arr [.doc []]),
    ("else", .str ("$" ++ alias'))])])])]

/-- The $unwind stage flattening the matched array, one output row per
element. -/
def unwindStage (alias' : String) : MQL :=
  .doc [("$unwind", .str ("$" ++ alias'))]

/-- The join function of query.py: the $lookup stage, the placeholder $set
stage for non-INNER joins, then $unwind. -/
def join (j : JoinSpec) (pushed_filter_expression : Option MQL) : List MQL :=
  [.doc [("$lookup", joinLookupStage j pushed_filter_expression)]]
  ++ (if j.join_type ≠ .inner then [louterSetStage j.table_alias] else [])
  ++ [unwindStage j.table_alias]

/-! A small pipeline-stage semantics for the stages following the $lookup:
the specific single-field $set and the $unwind over a field path.  $unwind
drops a document whose path is missing, null or an empty array, emits one
document per array element, and passes a non-array value through. -/

/-- Apply one stage to one document, producing its output documents. -/
def applyStage (d : Doc) (stage : MQL) : Option (List Doc) :=
  match stage with
  | .doc [("$set", .doc [(k, e)])] =>
    (match evalAgg d e with
     | some (.val v) => some [setField d k v]
     | _ => none)
  | .doc [("$unwind", .str s)] =>
    (match s.data with
     | '$' :: rest =>
       let k := String.mk rest
       some (match getField d k with
             | none => []
             | some .null => []
             | some (.arr xs) => xs.map (setField d k)
             | some v => [setField d k v])
     | _ => none)
  | _ => none

/-- Apply a list of stages to a stream of documents. -/
def applyStages : List MQL → List Doc → Option (List Doc)
  | [], ds => some ds
  | st :: sts, ds =>
    match ds.mapM (fun d => applyStage d st) with
    | some dss => applyStages sts dss.flatten
    | none => none

/-! The pipeline assembler from query.py (class MongoQuery).  A compiled
query bundle holds the per-query fragments; get_pipeline emits them in the
fixed order of the source and, when the bundle is itself a correlated
subquery, nests the whole list inside a $lookup followed by the
normalization $set stage. -/

/-- The $lookup descriptor stored in subquery_lookup: its field list (the
keys the compiler put into the dict, other than the pipeline added at
emission time) and the value of its "as" key naming the output field. -/
structure SubLookup where
  fields : List (String × MQL)
  asName : String

/-- A compiled query bundle, mirroring the attributes of MongoQuery that
get_pipeline reads.  Fields the source keeps as None-or-dict are lists of
key/value pairs, empty meaning falsy. -/
inductive MongoQuery where
  | mk (search_pipeline : List MQL)
       (lookup_pipeline : List MQL)
       (subqueries : List MongoQuery)
       (match_mql : List (String × MQL))
       (aggregation_pipeline : List MQL)
       (project_fields : List (String × MQL))
       (combinator_pipeline : List MQL)
       (extra_fields : List (String × MQL))
       (ordering : List (String × MQL))
       (low_mark : Nat)
       (high_mark : Option Nat)
       (subquery_lookup : Option SubLookup)

def MongoQuery.search_pipeline : MongoQuery → List MQL
  | .mk v _ _ _ _ _ _ _ _ _ _ _ => v

def MongoQuery.lookup_pipeline : MongoQuery → List MQL
  | .mk _ v _ _ _ _ _ _ _ _ _ _ => v

def MongoQuery.subqueries : MongoQuery → List MongoQuery
  | .mk _ _ v _ _ _ _ _ _ _ _ _ => v

def MongoQuery.match_mql : MongoQuery → List (String × MQL)
  | .mk _ _ _ v _ _ _ _ _ _ _ _ => v

def MongoQuery.aggregation_pipeline : MongoQuery → List MQL
  | .mk _ _ _ _ v _ _ _ _ _ _ _ => v

def MongoQuery.project_fields : MongoQuery → List (String × MQL)
  | .mk _ _ _ _ _ v _ _ _ _ _ _ => v

def MongoQuery.combinator_pipeline : MongoQuery → List MQL
  | .mk _ _ _ _ _ _ v _ _ _ _ _ => v

def MongoQuery.extra_fields : MongoQuery → List (String × MQL)
  | .mk _ _ _ _ _ _ _ v _ _ _ _ => v

def MongoQuery.ordering : MongoQuery → List (String × MQL)
  | .mk _ _ _ _ _ _ _ _ v _ _ _ => v

def MongoQuery.low_mark : MongoQuery → Nat
  | .mk _ _ _ _ _ _ _ _ _ v _ _ => v

def MongoQuery.high_mark : MongoQuery → Option Nat
  | .mk _ _ _ _ _ _ _ _ _ _ v _ => v

def MongoQuery.subquery_lookup : MongoQuery → Option SubLookup
  | .mk _ _ _ _ _ _ _ _ _ _ _ v => v

/-- The normalization $set stage emitted after a subquery-wrapping $lookup:
a missing or empty result array becomes an empty document, a nonempty one
is replaced by its single element. -/
def subqueryNormalizeStage (out : String) : MQL :=
  .doc [("$set", .doc [(out, .doc [("$cond", .doc [
    ("if", .doc [("$or", .arr [
      .doc [("$eq", .arr [.doc [("$type", .str ("$" ++ out))], .str "missing"])],
      .doc [("$eq", .arr [.doc [("$size", .str ("$" ++ out))], .int 0])]])]),
    ("then", .doc []),
    ("else", .doc [("$arrayElemAt", .arr [.str ("$" ++ out), .int 0])])])])])]

mutual

/-- MongoQuery.get_pipeline from query.py: the stage list in source order,
wrapped inside a $lookup plus normalization pair when subquery_lookup is
set. -/
def MongoQuery.get_pipeline : MongoQuery → List MQL
  | .mk search lookup subs matchm agg proj comb extra ord low high sublookup =>
    let pipeline :=
      search ++ lookup ++ MongoQuery.subsPipelines subs
      ++ (if !matchm.isEmpty then [MQL.doc [("$match", .doc matchm)]] else [])
      ++ agg
      ++ (if !proj.isEmpty then [MQL.doc [("$project", .doc proj)]] else [])
      ++ comb
      ++ (if !extra.isEmpty then [MQL.doc [("$addFields", .doc extra)]] else [])
      ++ (if !ord.isEmpty then [MQL.doc [("$sort", .doc ord)]] else [])
      ++ (if low > 0 then [MQL.doc [("$skip", .int low)]] else [])
      ++ (match high with
          | some h => [MQL.doc [("$limit", .int (h - low))]]
          | none => [])
    match sublookup with
    | none => pipeline
    | some sl =>
      [.doc [("$lookup", .doc (sl.fields ++ [("pipeline", .arr pipeline)]))],
       subqueryNormalizeStage sl.asName]

/-- Concatenation of the recursively emitted pipelines of the registered
nested subqueries, in registration order. -/
def MongoQuery.subsPipelines : List MongoQuery → List MQL
  | [] => []
  | q :: qs => q.get_pipeline ++ MongoQuery.subsPipelines qs

end

/-! Below, the emission order as the spec states it, one segment per
numbered stage of section 4.5, for comparison with get_pipeline. -/

/-- The at-most-one match stage segment, emitted only when a match document
exists. -/
def MongoQuery.matchSegment (q : MongoQuery) : List MQL :=
  if !q.match_mql.isEmpty then [MQL.doc [("$match", .doc q.match_mql)]] else []

/-- The projection stage segment. -/
def MongoQuery.projectSegment (q : MongoQuery) : List MQL :=
  if !q.project_fields.isEmpty then [MQL.doc [("$project", .doc q.project_fields)]]
  else []

/-- The extra computed-fields (add-fields) stage segment. -/
def MongoQuery.addFieldsSegment (q : MongoQuery) : List MQL :=
  if !q.extra_fields.isEmpty then [MQL.doc [("$addFields", .doc q.extra_fields)]]
  else []

/-- The sort stage segment. -/
def MongoQuery.sortSegment (q : MongoQuery) : List MQL :=
  if !q.ordering.isEmpty then [MQL.doc [("$sort", .doc q.ordering)]] else []

/-- The skip stage segment. -/
def MongoQuery.skipSegment (q : MongoQuery) : List MQL :=
  if q.low_mark > 0 then [MQL.doc [("$skip", .int q.low_mark)]] else []

/-- The limit stage segment. -/
def MongoQuery.limitSegment (q : MongoQuery) : List MQL :=
  match q.high_mark with
  | some h => [MQL.doc [("$limit", .int (h - q.low_mark))]]
  | none => []

/-- Modelled from the spec, section 4.5: the stage list in the stated order
-- search, joins, nested subquery pipelines, match, aggregation, project,
set-operation combinators, add-fields, sort, skip, limit. -/
def specStageList (q : MongoQuery) : List MQL :=
  List.flatten
    [q.search_pipeline, q.lookup_pipeline,
     (q.subqueries.map MongoQuery.get_pipeline).flatten,
     q.matchSegment, q.aggregation_pipeline, q.projectSegment,
     q.combinator_pipeline, q.addFieldsSegment, q.sortSegment,
     q.skipSegment, q.limitSegment]

/-- Modelled from the spec, section 4.5 item 11: a bundle consumed as a
correlated subquery nests the whole stage list inside a $lookup stage and
follows it with the single-object normalization step. -/
def specPipeline (q : MongoQuery) : List MQL :=
  match q.subquery_lookup with
  | none => specStageList q
  | some sl =>
    [.doc [("$lookup", .doc (sl.fields ++ [("pipeline", .arr (specStageList q))]))],
     subqueryNormalizeStage sl.asName]

/-! The delete operation of MongoQuery (query.py, MongoQuery.delete).  The
driver is abstracted as a function from a filter document to a deleted
count; the model also returns the list of filter documents passed to the
driver, so that "no driver call was issued" is expressible. -/

/-- The inputs MongoQuery.delete reads: the subqueries registered by the
compiler during compilation, and the compiled match document. -/
structure DeleteEnv where
  compiler_subqueries : List MQL
  match_mql : Doc

/-- MongoQuery.delete: raise NotSupportedError when the compiler registered
subqueries, otherwise issue one delete_many with the match document and
return the driver's deleted count.  The second component lists the filter
documents of the driver calls issued. -/
def mongoQueryDelete (env : DeleteEnv) (driverDeletedCount : Doc → Nat) :
    Except String Nat × List Doc :=
  if !env.compiler_subqueries.isEmpty then
    (.error "Cannot use QuerySet.delete() when a subquery is required.", [])
  else
    (.ok (driverDeletedCount env.match_mql), [env.match_mql])

/-! The index/constraint condition translator from indexes.py:
builtin_lookup_idx for leaf lookups and where_node_idx for AND/OR/XOR
nodes.  Conditions are trees whose leaves carry a lookup name, the
left-hand column and the processed right-hand value. -/

/-- The three connectors a WhereNode can carry. -/
inductive Connector where
  | AND
  | OR
  | XOR
  deriving Repr, DecidableEq

/-- A condition tree as the index translator consumes it. -/
inductive IdxNode where
  | lookup (lookup_name : String) (column : String) (value : MQL)
  | node (connector : Connector) (negated : Bool) (children : List IdxNode)

/-- MONGO_INDEX_OPERATORS from indexes.py: the only lookups the translator
accepts, and the operator each maps to. -/
def MONGO_INDEX_OPERATORS : List (String × String) :=
  [("exact", "$eq"), ("gt", "$gt"), ("gte", "$gte"),
   ("lt", "$lt"), ("lte", "$lte"), ("in", "$in")]

/-- Operator for a lookup name, when the table has it. -/
def lookupIndexOp (name : String) : Option String :=
  (MONGO_INDEX_OPERATORS.find? (fun p => p.1 == name)).map (fun p => p.2)

mutual

/-- The translator: builtin_lookup_idx on leaves (a lookup outside the
operator table raises NotSupportedError), where_node_idx on nodes (XOR and
negation raise NotSupportedError; children translate left to right, a
single child stands alone, several combine under the connector). -/
def as_mql_idx : IdxNode → Except String MQL
  | .lookup name col value =>
    match lookupIndexOp name with
    | some op => .ok (.doc [(col, .doc [(op, value)])])
    | none =>
      .error ("MongoDB does not support the '" ++ name ++ "' lookup in indexes.")
  | .node conn neg children =>
    match conn with
    | .XOR => .error "MongoDB does not support the '^' operator lookup in indexes."
    | _ =>
      if neg then .error "MongoDB does not support the '~' operator in indexes."
      else
        match as_mql_idx_list children with
        | .error e => .error e
        | .ok cs =>
          .ok (match cs with
               | [m] => m
               | [] => .doc []
               | ms => .doc [((match conn with
                               | .AND => "$and"
                               | _ => "$or"), .arr ms)])

def as_mql_idx_list : List IdxNode → Except String (List MQL)
  | [] => .ok []
  | t :: ts =>
    match as_mql_idx t with
    | .error e => .error e
    | .ok m =>
      match as_mql_idx_list ts with
      | .error e => .error e
      | .ok ms => .ok (m :: ms)

end

mutual

/-- Modelled from the spec, section 4.6: a condition is accepted exactly
when every leaf lookup is one of equality, greater, greater-or-equal, less,
less-or-equal or membership, every combination is AND or OR, and no node is
negated. -/
def supportedIdx : IdxNode → Bool
  | .lookup name _ _ => ["exact", "gt", "gte", "lt", "lte", "in"].contains name
  | .node conn neg children => conn != .XOR && !neg && supportedIdxList children

def supportedIdxList : List IdxNode → Bool
  | [] => true
  | t :: ts => supportedIdx t && supportedIdxList ts

end

/-- Whether an Except is a success. -/
def isOkE {ε α : Type} : Except ε α → Bool
  | .ok _ => true
  | .error _ => false

/-! The transaction coordinator: transaction.py (class Atomic) over the
transaction API of base.py (start_transaction_mongo, commit_mongo,
rollback_mongo, on_commit).  The session lifecycle calls issued to the
driver are recorded in a trace; commit hooks are identified by a number and
carry their robust flag and whether calling them succeeds.  The hook runner
(run_and_clear_commit_hooks, inherited from Django's base wrapper) is
modelled from the spec: queued hooks run in enqueue order once the physical
transaction commits, robust hooks have their failures logged and not
propagated. -/

/-- Session lifecycle calls observable by the driver. -/
inductive SessionCall where
  | begin_transaction
  | commit_transaction
  | abort_transaction
  deriving Repr, DecidableEq

/-- A commit hook: its identity, whether it was registered robust, and
whether invoking it succeeds. -/
structure Hook where
  hid : Nat
  robust : Bool
  ok : Bool
  deriving Repr, DecidableEq

/-- Per-connection state: the session handle (as a flag), the logical
transaction flag and nesting counter of this backend, the queued commit
hooks, and observation logs -- the session call trace, the hooks invoked in
order, and the robust failures logged. -/
structure Conn where
  hasSession : Bool
  in_atomic_block_mongo : Bool
  nested_atomics : Nat
  run_on_commit : List Hook
  trace : List SessionCall
  executed : List Nat
  loggedErrors : List Nat
  deriving Repr, DecidableEq

/-- The connection as it starts: no session, no transaction, no hooks. -/
def freshConn : Conn :=
  ⟨false, false, 0, [], [], [], []⟩

/-- DatabaseWrapper.start_transaction_mongo: open the session and start the
physical transaction only when no session exists yet. -/
def start_transaction_mongo (c : Conn) : Conn :=
  if c.hasSession then c
  else { c with hasSession := true, trace := c.trace ++ [.begin_transaction] }

/-- Invoke one hook: record the attempt; a failing robust hook logs its
error and continues, a failing non-robust hook propagates. -/
def runHook (c : Conn) (h : Hook) : Conn × Bool :=
  let c := { c with executed := c.executed ++ [h.hid] }
  if h.ok then (c, false)
  else if h.robust then ({ c with loggedErrors := c.loggedErrors ++ [h.hid] }, false)
  else (c, true)

/-- Run hooks in order until one propagates a failure. -/
def runHooksList : Conn → List Hook → Conn × Bool
  | c, [] => (c, false)
  | c, h :: hs =>
    let r := runHook c h
    if r.2 then (r.1, true) else runHooksList r.1 hs

/-- Modelled from the spec, section 4.7 (the hook runner inherited from
Django's base wrapper is not part of this repository): clear the queue,
then run the queued hooks in enqueue order; robust failures are logged and
not propagated. -/
def run_and_clear_commit_hooks (c : Conn) : Conn × Bool :=
  let hs := c.run_on_commit
  runHooksList { c with run_on_commit := [] } hs

/-- DatabaseWrapper.commit_mongo: when a session exists, commit the physical
transaction (which can fail) and end the session; then run the queued
commit hooks.  Returns the state, whether commit raised a database error,
and whether a hook propagated a failure. -/
def commit_mongo (commitOk : Bool) (c : Conn) : Conn × Bool × Bool :=
  if c.hasSession then
    if commitOk then
      let c := { c with trace := c.trace ++ [.commit_transaction], hasSession := false }
      let r := run_and_clear_commit_hooks c
      (r.1, false, r.2)
    else (c, true, false)
  else
    let r := run_and_clear_commit_hooks c
    (r.1, false, r.2)

/-- DatabaseWrapper.rollback_mongo: when a session exists, abort the
physical transaction and end the session; discard all queued hooks. -/
def rollback_mongo (c : Conn) : Conn :=
  let c :=
    if c.hasSession then
      { c with trace := c.trace ++ [.abort_transaction], hasSession := false }
    else c
  { c with run_on_commit := [] }

/-- DatabaseWrapper.on_commit: queue the hook while a logical transaction is
active, otherwise run it immediately (robust failures logged). -/
def on_commit (h : Hook) (c : Conn) : Conn :=
  if c.in_atomic_block_mongo then
    { c with run_on_commit := c.run_on_commit ++ [h] }
  else
    (runHook c h).1

/-- Atomic.__enter__ from transaction.py: an inner scope only increments the
nesting counter; the outermost scope starts the physical transaction and
raises the logical flag. -/
def enterAtomic (c : Conn) : Conn :=
  if c.in_atomic_block_mongo then
    { c with nested_atomics := c.nested_atomics + 1 }
  else
    { start_transaction_mongo c with in_atomic_block_mongo := true }

/-- Atomic.__exit__ from transaction.py: an inner scope decrements the
nesting counter; the outermost scope lowers the flag and then commits on
success (rolling back if the commit raises a database error) or rolls back
on failure. -/
def exitAtomic (excRaised commitOk : Bool) (c : Conn) : Conn :=
  let c :=
    if c.nested_atomics ≠ 0 then
      { c with nested_atomics := c.nested_atomics - 1 }
    else
      { c with in_atomic_block_mongo := false }
  if !excRaised then
    if !c.in_atomic_block_mongo then
      let r := commit_mongo commitOk c
      if r.2.1 then rollback_mongo r.1 else r.1
    else c
  else
    if !c.in_atomic_block_mongo then rollback_mongo c else c

/-- Apply a state transformer n times. -/
def applyN (f : Conn → Conn) : Nat → Conn → Conn
  | 0, c => c
  | n + 1, c => applyN f n (f c)

/-- Register a list of hooks in order through on_commit. -/
def queueHooks (hs : List Hook) (c : Conn) : Conn :=
  hs.foldl (fun c h => on_commit h c) c

/-! Shared helper lemmas. -/

theorem data_app (s t : String) : (s ++ t).data = s.data ++ t.data := by
  cases s; cases t; rfl

theorem mk_data (s : String) : String.mk s.data = s := by cases s; rfl

theorem dollar_data (s : String) : ("$" ++ s).data = '$' :: s.data := by
  rw [data_app]; rfl

theorem getField_setField (d : Doc) (k : String) (v : MQL) :
    getField (setField d k v) k = some v := by
  induction d with
  | nil => simp [setField, getField]
  | cons kv rest ih =>
    obtain ⟨k0, v0⟩ := kv
    by_cases h : k0 = k <;> simp [setField, getField, h, ih]

theorem setField_setField (d : Doc) (k : String) (v w : MQL) :
    setField (setField d k v) k w = setField d k w := by
  induction d with
  | nil => simp [setField]
  | cons kv rest ih =>
    obtain ⟨k0, v0⟩ := kv
    by_cases h : k0 = k <;> simp [setField, h, ih]

/-! Reduction lemmas for the aggregation evaluator, stated at the concrete
operator shapes the compiled fragments use. -/

theorem evalAgg_ref (d : Doc) (a : String) :
    evalAgg d (.str ("$" ++ a)) = some (refRes d a) := by
  have h : evalAgg d (.str ("$" ++ a)) =
      (match ("$" ++ a).data with
       | '$' :: rest => some (refRes d (String.mk rest))
       | _ => some (.val (.str ("$" ++ a)))) := rfl
  rw [h, dollar_data]
  simp [mk_data]

theorem evalAgg_cond (d : Doc) (i t e : MQL) :
    evalAgg d (.doc [("$cond", .doc [("if", i), ("then", t), ("else", e)])]) =
      match evalAgg d i with
      | some c => if aggTruthy c then evalAgg d t else evalAgg d e
      | none => none := rfl

theorem evalAgg_or2 (d : Doc) (x y : MQL) :
    evalAgg d (.doc [("$or", .arr [x, y])]) =
      (evalAggOr d [x, y]).map (fun b => .val (.bool b)) := rfl

theorem evalAgg_and2 (d : Doc) (x y : MQL) :
    evalAgg d (.doc [("$and", .arr [x, y])]) =
      (evalAggAnd d [x, y]).map (fun b => .val (.bool b)) := rfl

theorem evalAgg_not_or2 (d : Doc) (x y : MQL) :
    evalAgg d (.doc [("$not", .doc [("$or", .arr [x, y])])]) =
      (evalAgg d (.doc [("$or", .arr [x, y])])).map
        (fun r => .val (.bool (!aggTruthy r))) := rfl

theorem evalAgg_eq (d : Doc) (x y : MQL) :
    evalAgg d (.doc [("$eq", .arr [x, y])]) =
      match evalAgg d x, evalAgg d y with
      | some a, some b => some (.val (.bool (aggEq a b)))
      | _, _ => none := rfl

theorem evalAgg_lt (d : Doc) (x y : MQL) :
    evalAgg d (.doc [("$lt", .arr [x, y])]) =
      match evalAgg d x, evalAgg d y with
      | some a, some b => some (.val (.bool (aggLtB a b)))
      | _, _ => none := rfl

theorem evalAgg_lte (d : Doc) (x y : MQL) :
    evalAgg d (.doc [("$lte", .arr [x, y])]) =
      match evalAgg d x, evalAgg d y with
      | some a, some b => some (.val (.bool (aggLeB a b)))
      | _, _ => none := rfl

theorem evalAgg_type_str (d : Doc) (s : String) :
    evalAgg d (.doc [("$type", .str s)]) =
      (evalAgg d (.str s)).map (fun r => .val (.str (typeName r))) := rfl

theorem evalAgg_size_str (d : Doc) (s : String) :
    evalAgg d (.doc [("$size", .str s)]) =
      match evalAgg d (.str s) with
      | some (.val (.arr xs)) => some (.val (.int xs.length))
      | _ => none := rfl

theorem evalAggOr_cons (d : Doc) (x : MQL) (xs : List MQL) :
    evalAggOr d (x :: xs) =
      match evalAgg d x with
      | some r => if aggTruthy r then some true else evalAggOr d xs
      | none => none := rfl

theorem evalAggAnd_cons (d : Doc) (x : MQL) (xs : List MQL) :
    evalAggAnd d (x :: xs) =
      match evalAgg d x with
      | some r => if aggTruthy r then evalAggAnd d xs else some false
      | none => none := rfl

theorem applyStage_set (o : Doc) (k : String) (e : MQL) :
    applyStage o (.doc [("$set", .doc [(k, e)])]) =
      match evalAgg o e with
      | some (.val v) => some [setField o k v]
      | _ => none := rfl

theorem unwind_apply (a : String) (o : Doc) :
    applyStage o (unwindStage a) =
      some (match getField o a with
            | none => []
            | some .null => []
            | some (.arr xs) => xs.map (setField o a)
            | some v => [setField o a v]) := by
  simp only [applyStage, unwindStage, dollar_data, mk_data]

/-- The placeholder $set stage substitutes the one-element placeholder array
when the matched array is absent or empty. -/
theorem louterSet_apply_missing (a : String) (o : Doc)
    (h : getField o a = none ∨ getField o a = some (.arr [])) :
    applyStage o (louterSetStage a) = some [setField o a (.arr [.doc []])] := by
  obtain h | h := h <;>
    simp only [louterSetStage, applyStage_set, evalAgg_cond, evalAgg_or2,
      evalAggOr_cons, evalAgg_eq, evalAgg_type_str, evalAgg_size_str,
      evalAgg_ref, refRes, h] <;> rfl

/-- The placeholder $set stage leaves a nonempty matched array unchanged. -/
theorem louterSet_apply_nonempty (a : String) (o : Doc) (xs : List MQL)
    (hne : xs ≠ []) (h : getField o a = some (.arr xs)) :
    applyStage o (louterSetStage a) = some [setField o a (.arr xs)] := by
  simp only [louterSetStage, applyStage_set, evalAgg_cond, evalAgg_or2,
    evalAggOr_cons, evalAgg_eq, evalAgg_type_str, evalAgg_size_str,
    evalAgg_ref, refRes, h]
  have h0 : aggEq (.val (.str (typeName (.val (.arr xs))))) (.val (.str "missing"))
      = false := rfl
  have h1 : evalAgg o (.str "missing") = some (.val (.str "missing")) := rfl
  have h2 : evalAgg o (.int 0) = some (.val (.int 0)) := rfl
  have h3 : aggEq (.val (.int xs.length)) (.val (.int 0)) = false := by
    simp [aggEq, aggNullish, MQL.beq, hne]
  simp [h0, h1, h2, h3, aggTruthy, evalAggOr]

/-! Claim C10. -/

/-- C10: when compilation registered at least one subquery, delete raises a
not-supported error before issuing any driver call (the issued-call list is
empty, so the collection is untouched); with no registered subqueries it
issues exactly one bulk delete with the compiled match document and returns
the driver's deleted count. -/
theorem C10_delete_subqueries (env : DeleteEnv) (driver : Doc → Nat) :
    (env.compiler_subqueries ≠ [] →
      mongoQueryDelete env driver =
        (.error "Cannot use QuerySet.delete() when a subquery is required.", []))
    ∧ (env.compiler_subqueries = [] →
      mongoQueryDelete env driver = (.ok (driver env.match_mql), [env.match_mql])) := by
  constructor <;> intro h <;>
    simp [mongoQueryDelete, h, List.isEmpty_iff]

/-- Witness for C10 at concrete inputs: one registered subquery forbids the
delete; no registered subquery issues exactly one driver call. -/
theorem C10_delete_subqueries_witness :
    mongoQueryDelete ⟨[MQL.int 0], [("x", MQL.int 1)]⟩ (fun _ => 5) =
      (.error "Cannot use QuerySet.delete() when a subquery is required.", [])
    ∧ mongoQueryDelete ⟨[], [("x", MQL.int 1)]⟩ (fun _ => 5) =
      (.ok 5, [[("x", MQL.int 1)]]) :=
  ⟨(C10_delete_subqueries ⟨[MQL.int 0], [("x", MQL.int 1)]⟩ (fun _ => 5)).1
      (by simp),
   (C10_delete_subqueries ⟨[], [("x", MQL.int 1)]⟩ (fun _ => 5)).2 rfl⟩

/-! Claim C8. -/

theorem exit_inner (exc cOk : Bool) (c : Conn) (k : Nat)
    (h : c.in_atomic_block_mongo = true) (hk : c.nested_atomics = k + 1) :
    exitAtomic exc cOk c = { c with nested_atomics := k } := by
  simp [exitAtomic, hk, h]

theorem applyN_exit_drain (exc cOk : Bool) :
    ∀ (k : Nat) (c : Conn), c.in_atomic_block_mongo = true →
      c.nested_atomics = k →
      applyN (exitAtomic exc cOk) (k + 1) c =
        exitAtomic exc cOk { c with nested_atomics := 0 } := by
  intro k
  induction k with
  | zero =>
    intro c h hk
    have he : ({ c with nested_atomics := 0 } : Conn) = c := by rw [← hk]
    rw [he]
    rfl
  | succ n ih =>
    intro c h hk
    rw [show applyN (exitAtomic exc cOk) (n + 1 + 1) c =
        applyN (exitAtomic exc cOk) (n + 1) (exitAtomic exc cOk c) from rfl]
    rw [exit_inner exc cOk c n h hk]
    rw [ih _ (by simp [h]) (by simp)]

theorem applyN_enter_in_block :
    ∀ (k : Nat) (c : Conn), c.in_atomic_block_mongo = true →
      applyN enterAtomic k c = { c with nested_atomics := c.nested_atomics + k } := by
  intro k
  induction k with
  | zero => intro c h; cases c; rfl
  | succ n ih =>
    intro c h
    rw [show applyN enterAtomic (n + 1) c = applyN enterAtomic n (enterAtomic c)
        from rfl]
    rw [show enterAtomic c = { c with nested_atomics := c.nested_atomics + 1 }
        from by simp [enterAtomic, h]]
    rw [ih _ (by simp [h])]
    cases c
    simp
    omega

theorem enterN_fresh (k : Nat) :
    applyN enterAtomic (k + 1) freshConn =
      ⟨true, true, k, [], [.begin_transaction], [], []⟩ := by
  rw [show applyN enterAtomic (k + 1) freshConn =
      applyN enterAtomic k (enterAtomic freshConn) from rfl]
  rw [show enterAtomic freshConn =
      (⟨true, true, 0, [], [.begin_transaction], [], []⟩ : Conn) from rfl]
  rw [applyN_enter_in_block k _ rfl]
  simp

/-- C8: for n nested begin/end pairs of atomic scopes on one connection
(n at least 1), the session lifecycle trace is exactly one begin followed by
one commit (success) or one begin followed by one rollback (failure): only
the outermost begin opens the physical transaction, inner begins increment
the nesting counter, inner ends decrement it without committing. -/
theorem C8_nested_atomic_single_txn (n : Nat) (h : 1 ≤ n) :
    (applyN (exitAtomic false true) n (applyN enterAtomic n freshConn)).trace
      = [.begin_transaction, .commit_transaction]
    ∧ (applyN (exitAtomic true true) n (applyN enterAtomic n freshConn)).trace
      = [.begin_transaction, .abort_transaction] := by
  obtain ⟨k, rfl⟩ : ∃ k, n = k + 1 := ⟨n - 1, by omega⟩
  rw [enterN_fresh k]
  constructor
  · rw [applyN_exit_drain false true k _ rfl rfl]
    rfl
  · rw [applyN_exit_drain true true k _ rfl rfl]
    rfl

/-- Witness for C8: two nested scopes produce the single begin/commit pair
(and the single begin/abort pair on failure). -/
theorem C8_nested_atomic_single_txn_witness :
    (applyN (exitAtomic false true) 2 (applyN enterAtomic 2 freshConn)).trace
      = [.begin_transaction, .commit_transaction]
    ∧ (applyN (exitAtomic true true) 2 (applyN enterAtomic 2 freshConn)).trace
      = [.begin_transaction, .abort_transaction] :=
  C8_nested_atomic_single_txn 2 (by decide)

/-! Claim C3. -/

theorem exceptBind_error {ε α β : Type} (e : ε) (f : α → Except ε β) :
    (Except.error e >>= f) = .error e := rfl

theorem exceptBind_ok {ε α β : Type} (a : α) (f : α → Except ε β) :
    ((Except.ok a : Except ε α) >>= f) = f a := rfl

theorem exceptMap_error {ε α β : Type} (e : ε) (f : α → β) :
    Except.map f (Except.error e : Except ε α) = .error e := rfl

theorem exceptMap_ok {ε α β : Type} (a : α) (f : α → β) :
    Except.map f (Except.ok a : Except ε α) = .ok (f a) := rfl

theorem whereLoop_foldlM (negated : Bool) :
    ∀ (cs : List ChildOutcome) (fn en : Nat) (acc : List MQL),
      whereLoop negated fn en acc cs =
        (cs.foldlM (wnStep negated) ⟨fn, en, acc⟩).map WNState.kept := by
  intro cs
  induction cs with
  | nil => intro fn en acc; rfl
  | cons c cs ih =>
    intro fn en acc
    rw [show List.foldlM (wnStep negated) (⟨fn, en, acc⟩ : WNState) (c :: cs) =
        (wnStep negated ⟨fn, en, acc⟩ c) >>= (fun s => cs.foldlM (wnStep negated) s)
        from rfl]
    cases c with
    | empty =>
      simp only [whereLoop, wnStep]
      split_ifs <;>
        simp_all [ih, exceptBind_error, exceptBind_ok, exceptMap_error,
          exceptMap_ok]
    | full =>
      simp only [whereLoop, wnStep]
      split_ifs <;>
        simp_all [ih, exceptBind_error, exceptBind_ok, exceptMap_error,
          exceptMap_ok]
    | frag m =>
      simp only [whereLoop, wnStep]
      by_cases hm : m.truthy <;> simp only [hm] <;>
        split_ifs <;>
        simp_all [ih, exceptBind_error, exceptBind_ok, exceptMap_error,
          exceptMap_ok]

/-- Counterexample to C3 as stated: a negated AND with an ALWAYS-TRUE first
child and an ordinary second child.  The code initializes full_needed to the
child count (2), so the ALWAYS-TRUE child only decrements it to 1 and the
node compiles to the negation of the remaining fragment; the claimed
initialization (full_needed 1 for a negated AND) would hit zero on the first
child and raise the whole-subtree ALWAYS-FALSE signal instead. -/
theorem C3_counterexample :
    where_node_src .AND true false [.full, .frag (.doc [("x", .int 1)])]
      = .ok (.doc [("$nor", .arr [.doc [("x", .int 1)]])])
    ∧ where_node_claim .AND true false [.full, .frag (.doc [("x", .int 1)])]
      = .error .emptyRS := ⟨rfl, rfl⟩

/-- C3 amended: the counters are initialized from the connector alone --
full_needed is the child count for AND and 1 for OR, empty_needed is 1 for
AND and the child count for OR, irrespective of negation (negation only
swaps the polarity of the raised signal); children compile left to right,
an ALWAYS-FALSE child decrements empty_needed, an ALWAYS-TRUE child (or one
compiling to an empty fragment) decrements full_needed and is dropped, and
a counter reaching zero aborts with the polarity-adjusted whole-subtree
signal. -/
theorem C3_where_node_counters (conn : ACConnector) (negated as_expr : Bool)
    (children : List ChildOutcome) :
    where_node_src conn negated as_expr children =
      where_node_amended conn negated as_expr children := by
  unfold where_node_src where_node_amended
  cases conn <;> simp only [] <;>
  · rw [whereLoop_foldlM]
    cases h : List.foldlM (wnStep negated) _ children <;>
      simp [h, exceptBind_error, exceptBind_ok, exceptMap_error, exceptMap_ok]

/-! Claim C7. -/

theorem lookupIndexOp_isSome (name : String) :
    (lookupIndexOp name).isSome
      = ["exact", "gt", "gte", "lt", "lte", "in"].contains name := by
  by_cases h1 : name = "exact"; · subst h1; rfl
  by_cases h2 : name = "gt"; · subst h2; rfl
  by_cases h3 : name = "gte"; · subst h3; rfl
  by_cases h4 : name = "lt"; · subst h4; rfl
  by_cases h5 : name = "lte"; · subst h5; rfl
  by_cases h6 : name = "in"; · subst h6; rfl
  have e1 : ("exact" == name) = false := beq_eq_false_iff_ne.mpr (fun hh => h1 hh.symm)
  have e2 : ("gt" == name) = false := beq_eq_false_iff_ne.mpr (fun hh => h2 hh.symm)
  have e3 : ("gte" == name) = false := beq_eq_false_iff_ne.mpr (fun hh => h3 hh.symm)
  have e4 : ("lt" == name) = false := beq_eq_false_iff_ne.mpr (fun hh => h4 hh.symm)
  have e5 : ("lte" == name) = false := beq_eq_false_iff_ne.mpr (fun hh => h5 hh.symm)
  have e6 : ("in" == name) = false := beq_eq_false_iff_ne.mpr (fun hh => h6 hh.symm)
  simp [lookupIndexOp, MONGO_INDEX_OPERATORS, List.find?, List.contains,
    e1, e2, e3, e4, e5, e6, h1, h2, h3, h4, h5, h6]

mutual

theorem idx_ok_eq : ∀ t : IdxNode, isOkE (as_mql_idx t) = supportedIdx t
  | .lookup name col v => by
    have h2 := (lookupIndexOp_isSome name).symm
    cases hl : lookupIndexOp name <;> rw [hl] at h2 <;>
      simp only [Option.isSome_none, Option.isSome_some] at h2 <;>
      rw [show supportedIdx (.lookup name col v)
          = ["exact", "gt", "gte", "lt", "lte", "in"].contains name from rfl, h2] <;>
      simp [as_mql_idx, hl, isOkE]
  | .node conn neg children => by
    cases conn with
    | XOR => simp [as_mql_idx, supportedIdx, isOkE]
    | AND =>
      cases neg with
      | true => simp [as_mql_idx, supportedIdx, isOkE]
      | false =>
        have hlist := idx_ok_eq_list children
        cases h : as_mql_idx_list children with
        | error e =>
          rw [h] at hlist
          simp only [isOkE] at hlist
          simp [as_mql_idx, h, supportedIdx, isOkE, ← hlist]
        | ok cs =>
          rw [h] at hlist
          simp only [isOkE] at hlist
          simp [as_mql_idx, h, supportedIdx, isOkE, ← hlist]
    | OR =>
      cases neg with
      | true => simp [as_mql_idx, supportedIdx, isOkE]
      | false =>
        have hlist := idx_ok_eq_list children
        cases h : as_mql_idx_list children with
        | error e =>
          rw [h] at hlist
          simp only [isOkE] at hlist
          simp [as_mql_idx, h, supportedIdx, isOkE, ← hlist]
        | ok cs =>
          rw [h] at hlist
          simp only [isOkE] at hlist
          simp [as_mql_idx, h, supportedIdx, isOkE, ← hlist]

theorem idx_ok_eq_list :
    ∀ ts : List IdxNode, isOkE (as_mql_idx_list ts) = supportedIdxList ts
  | [] => rfl
  | t :: ts => by
    have ht := idx_ok_eq t
    have hts := idx_ok_eq_list ts
    cases h1 : as_mql_idx t with
    | error e =>
      rw [h1] at ht
      simp only [isOkE] at ht
      simp [as_mql_idx_list, h1, supportedIdxList, ← ht, isOkE]
    | ok m =>
      rw [h1] at ht
      simp only [isOkE] at ht
      cases h2 : as_mql_idx_list ts with
      | error e =>
        rw [h2] at hts
        simp only [isOkE] at hts
        simp [as_mql_idx_list, h1, h2, supportedIdxList, ← ht, ← hts, isOkE]
      | ok ms =>
        rw [h2] at hts
        simp only [isOkE] at hts
        simp [as_mql_idx_list, h1, h2, supportedIdxList, ← ht, ← hts, isOkE]

end

/-- C7: the index condition translator succeeds exactly on conditions built
from the lookups equality, greater, greater-or-equal, less, less-or-equal
and membership, combined by AND or OR with no negation and no XOR; on every
other condition it raises an unsupported-construct error, so no
partial-filter document is ever produced for them. -/
theorem C7_index_condition_translator (t : IdxNode) :
    isOkE (as_mql_idx t) = supportedIdx t :=
  idx_ok_eq t

/-! Claim C4. -/

theorem foldl_add_eval (bs : List Bool) :
    ∀ e : NumExpr, (List.foldl NumExpr.add e (bs.map NumExpr.case1)).eval
      = e.eval + (bs.count true : Int) := by
  induction bs with
  | nil => intro e; simp
  | cons b bs ih =>
    intro e
    simp only [List.map_cons, List.foldl_cons, ih]
    rw [show (NumExpr.add e (.case1 b)).eval = e.eval + (if b then 1 else 0)
        from rfl]
    cases b <;> simp [List.count_cons] <;> push_cast <;> ring

theorem foldl_add_hasMod (bs : List Bool) :
    ∀ e : NumExpr, (List.foldl NumExpr.add e (bs.map NumExpr.case1)).hasMod
      = e.hasMod := by
  induction bs with
  | nil => intro e; rfl
  | cons b bs ih =>
    intro e
    simp only [List.map_cons, List.foldl_cons, ih]
    simp [NumExpr.hasMod]

theorem any_id_eq_count_pos (bs : List Bool) :
    bs.any id = decide (0 < bs.count true) := by
  induction bs with
  | nil => rfl
  | cons b bs ih => cases b <;> simp [List.count_cons, ih]

theorem parity_mod_case (n : Nat) :
    (decide (0 < n) && ((n : Int) % 2 == 1)) = (n % 2 == 1) := by
  rw [Bool.eq_iff_iff]
  simp only [Bool.and_eq_true, decide_eq_true_eq, beq_iff_eq]
  omega

theorem parity_nomod_case (n : Nat) (hn : n ≤ 2) :
    (decide (0 < n) && ((n : Int) == 1)) = (n % 2 == 1) := by
  interval_cases n <;> decide

theorem xorLowered_orOperands (l : List Bool) (e : NumExpr) :
    (XorLowered.mk l e).orOperands = l := rfl

theorem xorLowered_parityExpr (l : List Bool) (e : NumExpr) :
    (XorLowered.mk l e).parityExpr = e := rfl

theorem xorTruth_eq (negated : Bool) (children : List Bool) :
    xorTruth negated children =
      (if negated then !(children.count true % 2 == 1)
       else (children.count true % 2 == 1)) := rfl

theorem evalAsWhere_eq (x : XorLowered) (negated : Bool) (p : Bool)
    (h : (x.orOperands.any id && (x.parityExpr.eval == 1)) = p) :
    x.evalAsWhere negated = (if negated then !p else p) := by
  cases negated <;> simp [XorLowered.evalAsWhere, ← h]

/-- C4: the XOR branch of where_node rewrites an n-ary XOR (n at least 2)
into the conjunction of an OR over all operands and an Exact(1, sum) parity
test, applying Mod(_, 2) to the sum exactly when there are more than two
operands, and the rewritten form agrees with the XOR truth table (true iff
an odd number of operands are true) on every operand list of length 2 to 4
(this proof covers any length at least 2). -/
theorem C4_xor_parity_rewrite (children : List Bool) (negated : Bool)
    (h2 : 2 ≤ children.length) (h4 : children.length ≤ 4) :
    ∃ x, xor_rewrite children = some x
      ∧ x.parityExpr.hasMod = decide (2 < children.length)
      ∧ x.evalAsWhere negated = xorTruth negated children := by
  obtain ⟨a, rest0, rfl⟩ : ∃ a rest0, children = a :: rest0 := by
    cases children with
    | nil => exfalso; simp at h2
    | cons a t => exact ⟨a, t, rfl⟩
  obtain ⟨b, rest, rfl⟩ : ∃ b rest, rest0 = b :: rest := by
    cases rest0 with
    | nil => exfalso; simp at h2
    | cons b t => exact ⟨b, t, rfl⟩
  refine ⟨_, rfl, ?_, ?_⟩
  · simp only [xorLowered_parityExpr]
    by_cases hlen : (a :: b :: rest).length > 2
    · rw [if_pos hlen, show (NumExpr.mod2 (List.foldl NumExpr.add
          (NumExpr.case1 a) ((b :: rest).map NumExpr.case1))).hasMod = true
          from rfl]
      exact (decide_eq_true hlen).symm
    · rw [if_neg hlen, foldl_add_hasMod,
        show (NumExpr.case1 a).hasMod = false from rfl]
      exact (decide_eq_false hlen).symm
  · have hany := any_id_eq_count_pos (a :: b :: rest)
    have hs : (List.foldl NumExpr.add (NumExpr.case1 a)
        ((b :: rest).map NumExpr.case1)).eval
        = (((a :: b :: rest).count true : Nat) : Int) := by
      rw [foldl_add_eval]
      rw [show (NumExpr.case1 a).eval = (if a then 1 else 0) from rfl]
      cases a <;> simp [List.count_cons] <;> push_cast <;> ring
    rw [xorTruth_eq]
    apply evalAsWhere_eq
    simp only [xorLowered_orOperands, xorLowered_parityExpr]
    rw [hany]
    by_cases hlen : (a :: b :: rest).length > 2
    · rw [if_pos hlen]
      rw [show (NumExpr.mod2 (List.foldl NumExpr.add (NumExpr.case1 a)
          ((b :: rest).map NumExpr.case1))).eval
          = (List.foldl NumExpr.add (NumExpr.case1 a)
            ((b :: rest).map NumExpr.case1)).eval % 2 from rfl]
      rw [hs]
      exact parity_mod_case _
    · rw [if_neg hlen]
      rw [hs]
      refine parity_nomod_case _ ?_
      have hc : (a :: b :: rest).count true ≤ (a :: b :: rest).length :=
        List.count_le_length _ _
      simp only [List.length_cons] at hlen hc
      omega

/-- Witness for C4 at the concrete operand list true, true, false with an
unnegated node. -/
theorem C4_xor_parity_rewrite_witness :
    ∃ x, xor_rewrite [true, true, false] = some x
      ∧ x.parityExpr.hasMod = decide (2 < ([true, true, false] : List Bool).length)
      ∧ x.evalAsWhere false = xorTruth false [true, true, false] :=
  C4_xor_parity_rewrite [true, true, false] false (by decide) (by decide)

/-! Claims C5 and C6. -/

theorem dollarKey_append (a : String) : isDollarKey ("$" ++ a) = true := by
  simp [isDollarKey, dollar_data]

theorem dollarKey_or : isDollarKey "$or" = true := rfl

theorem dollarKey_and : isDollarKey "$and" = true := rfl

theorem evalAgg_str_missing (d : Doc) :
    evalAgg d (.str "missing") = some (.val (.str "missing")) := rfl

theorem evalAgg_null (d : Doc) : evalAgg d .null = some (.val .null) := rfl

theorem evalAgg_int (d : Doc) (n : Int) :
    evalAgg d (.int n) = some (.val (.int n)) := rfl

/-- C5: for every field (any non-operator field name) and every field state,
the isnull=True operator matches exactly the states where the field is
absent or explicitly null, and the isnull=False operator matches exactly the
complement -- in path mode (the find-document evaluator) and in expression
mode (the aggregation evaluator over the single-field document) alike, so
the false form is the exact logical negation of the true form. -/
theorem C5_isnull_absent_or_null (f : String) (fv : FieldVal)
    (hf : isDollarKey f = false) :
    (evalPathQuery f fv (isnull_operator f true) = some (isNullState fv)
     ∧ evalPathQuery f fv (isnull_operator f false) = some (!(isNullState fv)))
    ∧ (evalAgg (docOf f fv) (isnull_expr (.str ("$" ++ f)) true)
         = some (.val (.bool (isNullState fv)))
       ∧ evalAgg (docOf f fv) (isnull_expr (.str ("$" ++ f)) false)
         = some (.val (.bool (!(isNullState fv))))) := by
  refine ⟨⟨?_, ?_⟩, ?_, ?_⟩ <;>
    cases fv <;>
      simp [isnull_operator, isnull_expr, evalPathQuery, evalPathList,
        evalFieldCond, fieldEqB, eqMatchNull, isNullState, hf, dollarKey_or,
        dollarKey_and, docOf, evalAgg_not_or2, evalAgg_or2, evalAggOr_cons,
        evalAgg_eq, evalAgg_type_str, evalAgg_ref, evalAgg_str_missing,
        evalAgg_null, refRes, getField, evalAggOr, typeName, aggEq,
        aggNullish, aggTruthy, MQL.beq]

/-- Witness for C5 at the field named x in the explicit-null state. -/
theorem C5_isnull_absent_or_null_witness :
    (evalPathQuery "x" .null (isnull_operator "x" true) = some (isNullState .null)
     ∧ evalPathQuery "x" .null (isnull_operator "x" false)
         = some (!(isNullState .null)))
    ∧ (evalAgg (docOf "x" .null) (isnull_expr (.str ("$" ++ "x")) true)
         = some (.val (.bool (isNullState .null)))
       ∧ evalAgg (docOf "x" .null) (isnull_expr (.str ("$" ++ "x")) false)
         = some (.val (.bool (!(isNullState .null))))) :=
  C5_isnull_absent_or_null "x" .null rfl

/-- C6: less-than and less-than-or-equal compile, in both modes, to the
conjunction of the raw comparison and the not-null guard, and on a field
that is absent or explicitly null the compiled predicate never matches --
even in expression mode, where the store's native ordering would place null
below the integer bound. -/
theorem C6_lt_excludes_null (f : String) (m : Int) (fv : FieldVal)
    (hf : isDollarKey f = false) (hfv : fv = .absent ∨ fv = .null) :
    mongo_lt f (.int m)
      = .doc [("$and", .arr [.doc [(f, .doc [("$lt", .int m)])],
               isnull_operator f false])]
    ∧ mongo_expr_lt (.str ("$" ++ f)) (.int m)
      = .doc [("$and", .arr [.doc [("$lt", .arr [.str ("$" ++ f), .int m])],
               isnull_expr (.str ("$" ++ f)) false])]
    ∧ evalPathQuery f fv (mongo_lt f (.int m)) = some false
    ∧ evalPathQuery f fv (mongo_lte f (.int m)) = some false
    ∧ evalAgg (docOf f fv) (mongo_expr_lt (.str ("$" ++ f)) (.int m))
        = some (.val (.bool false))
    ∧ evalAgg (docOf f fv) (mongo_expr_lte (.str ("$" ++ f)) (.int m))
        = some (.val (.bool false)) := by
  refine ⟨rfl, rfl, ?_, ?_, ?_, ?_⟩ <;>
    obtain rfl | rfl := hfv <;>
      simp [mongo_lt, mongo_lte, mongo_expr_lt, mongo_expr_lte,
        isnull_operator, isnull_expr, evalPathQuery, evalPathList,
        evalFieldCond, fieldEqB, eqMatchNull, hf, dollarKey_or, dollarKey_and,
        docOf, evalAgg_not_or2, evalAgg_or2, evalAgg_and2, evalAggOr_cons,
        evalAggAnd_cons, evalAgg_eq, evalAgg_lt, evalAgg_lte,
        evalAgg_type_str, evalAgg_ref, evalAgg_str_missing, evalAgg_null,
        evalAgg_int, refRes, getField, evalAggOr, evalAggAnd, typeName,
        aggEq, aggNullish, aggTruthy, aggLtB, aggLeB, aggRank, MQL.beq]

/-- Witness for C6 at the field named x, the bound 0 and the explicit-null
state. -/
theorem C6_lt_excludes_null_witness :
    mongo_lt "x" (.int 0)
      = .doc [("$and", .arr [.doc [("x", .doc [("$lt", .int 0)])],
               isnull_operator "x" false])]
    ∧ mongo_expr_lt (.str ("$" ++ "x")) (.int 0)
      = .doc [("$and", .arr [.doc [("$lt", .arr [.str ("$" ++ "x"), .int 0])],
               isnull_expr (.str ("$" ++ "x")) false])]
    ∧ evalPathQuery "x" .null (mongo_lt "x" (.int 0)) = some false
    ∧ evalPathQuery "x" .null (mongo_lte "x" (.int 0)) = some false
    ∧ evalAgg (docOf "x" .null) (mongo_expr_lt (.str ("$" ++ "x")) (.int 0))
        = some (.val (.bool false))
    ∧ evalAgg (docOf "x" .null) (mongo_expr_lte (.str ("$" ++ "x")) (.int 0))
        = some (.val (.bool false)) :=
  C6_lt_excludes_null "x" 0 .null rfl (Or.inr rfl)

/-! Claim C2. -/

theorem applyStages_cons (st : MQL) (sts : List MQL) (ds : List Doc) :
    applyStages (st :: sts) ds =
      match ds.mapM (fun d => applyStage d st) with
      | some dss => applyStages sts dss.flatten
      | none => none := rfl

theorem applyStages_nil (ds : List Doc) : applyStages [] ds = some ds := rfl

theorem joinConditions_louter (j : JoinSpec) (p : Option MQL)
    (hj : j.join_type ≠ .inner) :
    joinConditions j p = joinConditions j none := by
  cases hjt : j.join_type with
  | inner => exact absurd hjt hj
  | louter => cases p <;> simp [joinConditions, hjt]

theorem join_louter_shape (j : JoinSpec) (p : Option MQL)
    (hj : j.join_type = .louter) :
    join j p = [.doc [("$lookup", joinLookupStage j none)],
                louterSetStage j.table_alias, unwindStage j.table_alias] := by
  have hc : joinConditions j p = joinConditions j none :=
    joinConditions_louter j p (by simp [hj])
  simp [join, hj, joinLookupStage, joinSubPipeline, hc]

theorem join_inner_shape (j : JoinSpec) (p : Option MQL)
    (hj : j.join_type = .inner) :
    join j p = [.doc [("$lookup", joinLookupStage j p)],
                unwindStage j.table_alias] := by
  simp [join, hj]

theorem pushed_in_conditions (j : JoinSpec) (q : MQL)
    (hj : j.join_type = .inner) :
    q ∈ joinConditions j (some q) := by
  simp [joinConditions, hj]

theorem louter_tail_unmatched (a : String) (o : Doc)
    (h : getField o a = none ∨ getField o a = some (.arr [])) :
    applyStages [louterSetStage a, unwindStage a] [o]
      = some [setField o a (.doc [])] := by
  rw [applyStages_cons, List.mapM_cons, List.mapM_nil]
  rw [louterSet_apply_missing a o h]
  simp only [Option.pure_def, Option.bind_eq_bind, Option.bind_some,
    Option.some_bind]
  rw [show ([[setField o a (.arr [.doc []])]] : List (List Doc)).flatten
      = [setField o a (.arr [.doc []])] from by simp]
  rw [applyStages_cons, List.mapM_cons, List.mapM_nil]
  rw [unwind_apply]
  rw [getField_setField]
  simp [setField_setField, applyStages_nil]

theorem inner_tail_unmatched (a : String) (o : Doc)
    (h : getField o a = none ∨ getField o a = some (.arr [])) :
    applyStages [unwindStage a] [o] = some [] := by
  rw [applyStages_cons, List.mapM_cons, List.mapM_nil]
  rw [unwind_apply]
  obtain h | h := h <;> rw [h] <;> simp [applyStages_nil]

theorem louter_tail_matched (a : String) (o : Doc) (xs : List MQL)
    (hne : xs ≠ []) (h : getField o a = some (.arr xs)) :
    applyStages [louterSetStage a, unwindStage a] [o]
      = some (xs.map (setField o a)) := by
  rw [applyStages_cons, List.mapM_cons, List.mapM_nil]
  rw [louterSet_apply_nonempty a o xs hne h]
  simp only [Option.pure_def, Option.bind_eq_bind, Option.bind_some,
    Option.some_bind]
  rw [show ([[setField o a (.arr xs)]] : List (List Doc)).flatten
      = [setField o a (.arr xs)] from by simp]
  rw [applyStages_cons, List.mapM_cons, List.mapM_nil]
  rw [unwind_apply]
  rw [getField_setField]
  simp [setField_setField, applyStages_nil]

theorem inner_tail_matched (a : String) (o : Doc) (xs : List MQL)
    (h : getField o a = some (.arr xs)) :
    applyStages [unwindStage a] [o] = some (xs.map (setField o a)) := by
  rw [applyStages_cons, List.mapM_cons, List.mapM_nil, unwind_apply, h]
  simp [applyStages_nil]

/-- C2: join lowering preserves join-kind cardinality.  For a LEFT OUTER
join the pushed-down filter is never folded (the emitted fragment is
identical to the one with no pushed filter) and the fragment is the lookup
stage, the placeholder $set stage and the unwind stage; for an INNER join
the pushed-down filter is folded into the lookup conditions and no
placeholder stage is emitted.  Semantically, on an outer row whose matched
array is absent or empty, the stages after the lookup produce exactly one
output row for a LEFT OUTER join (with the alias bound to an empty
document) and zero rows for an INNER join; a nonempty matched array yields
one row per element for either kind. -/
theorem C2_join_cardinality (j : JoinSpec) (p : Option MQL) (o : Doc) :
    (j.join_type = .louter →
      join j p = [.doc [("$lookup", joinLookupStage j none)],
                  louterSetStage j.table_alias, unwindStage j.table_alias])
    ∧ (j.join_type = .inner →
      join j p = [.doc [("$lookup", joinLookupStage j p)],
                  unwindStage j.table_alias]
      ∧ ∀ q, p = some q → q ∈ joinConditions j p)
    ∧ ((getField o j.table_alias = none
        ∨ getField o j.table_alias = some (.arr [])) →
      (j.join_type = .louter →
        applyStages (join j p).tail [o]
          = some [setField o j.table_alias (.doc [])])
      ∧ (j.join_type = .inner → applyStages (join j p).tail [o] = some []))
    ∧ (∀ xs, xs ≠ [] → getField o j.table_alias = some (.arr xs) →
      applyStages (join j p).tail [o]
        = some (xs.map (setField o j.table_alias))) := by
  refine ⟨fun hj => join_louter_shape j p hj, ?_, ?_, ?_⟩
  · intro hj
    refine ⟨join_inner_shape j p hj, ?_⟩
    rintro q rfl
    exact pushed_in_conditions j q hj
  · intro h
    constructor
    · intro hj
      rw [join_louter_shape j p hj]
      exact louter_tail_unmatched _ o h
    · intro hj
      rw [join_inner_shape j p hj]
      exact inner_tail_unmatched _ o h
  · intro xs hne hx
    cases hjt : j.join_type with
    | louter =>
      rw [join_louter_shape j p hjt]
      exact louter_tail_matched _ o xs hne hx
    | inner =>
      rw [join_inner_shape j p hjt]
      exact inner_tail_matched _ o xs hx

/-- Witness for C2 at a concrete LEFT OUTER join, a concrete INNER join, a
concrete pushed filter and a concrete outer row without a matched array. -/
theorem C2_join_cardinality_witness :
    join ⟨"t", "a", .louter, [], none⟩ (some (.doc [("p", .int 1)]))
      = [.doc [("$lookup", joinLookupStage ⟨"t", "a", .louter, [], none⟩ none)],
         louterSetStage "a", unwindStage "a"]
    ∧ applyStages
        (join ⟨"t", "a", .louter, [], none⟩ (some (.doc [("p", .int 1)]))).tail
        [[("x", .int 1)]]
        = some [setField [("x", .int 1)] "a" (.doc [])]
    ∧ applyStages (join ⟨"t", "a", .inner, [], none⟩ none).tail [[("x", .int 1)]]
        = some []
    ∧ (MQL.doc [("p", .int 1)]) ∈ joinConditions ⟨"t", "a", .inner, [], none⟩
        (some (.doc [("p", .int 1)])) :=
  ⟨(C2_join_cardinality ⟨"t", "a", .louter, [], none⟩
      (some (.doc [("p", .int 1)])) [("x", .int 1)]).1 rfl,
   ((C2_join_cardinality ⟨"t", "a", .louter, [], none⟩
      (some (.doc [("p", .int 1)])) [("x", .int 1)]).2.2.1 (Or.inl rfl)).1 rfl,
   ((C2_join_cardinality ⟨"t", "a", .inner, [], none⟩
      none [("x", .int 1)]).2.2.1 (Or.inl rfl)).2 rfl,
   ((C2_join_cardinality ⟨"t", "a", .inner, [], none⟩
      (some (.doc [("p", .int 1)])) [("x", .int 1)]).2.1 rfl).2
      (.doc [("p", .int 1)]) rfl⟩

/-! Claim C1. -/

theorem subsPipelines_eq (qs : List MongoQuery) :
    MongoQuery.subsPipelines qs = (qs.map MongoQuery.get_pipeline).flatten := by
  induction qs with
  | nil => rfl
  | cons q qs ih => simp [MongoQuery.subsPipelines, ih]

/-- C1: get_pipeline emits exactly the stage list of the spec's fixed order
-- search, joins/lookups, nested subquery pipelines, the at-most-one match
stage (present iff a match document exists), aggregation stages, the
projection stage, set-operation combinator stages, the add-fields stage,
sort, skip, limit -- and a bundle that is itself a correlated subquery nests
the whole list inside a $lookup stage followed by the normalization step
that turns a missing or empty result array into an empty object and
otherwise extracts its single element. -/
theorem C1_pipeline_stage_order (q : MongoQuery) :
    q.get_pipeline = specPipeline q
    ∧ q.matchSegment.length ≤ 1
    ∧ (q.matchSegment = [] ↔ q.match_mql = []) := by
  obtain ⟨search, lookup, subs, matchm, agg, proj, comb, extra, ord, low, high,
    sublookup⟩ := q
  refine ⟨?_, ?_, ?_⟩
  · cases sublookup <;>
      simp [MongoQuery.get_pipeline, specPipeline, specStageList,
        MongoQuery.search_pipeline, MongoQuery.lookup_pipeline,
        MongoQuery.subqueries, MongoQuery.match_mql,
        MongoQuery.aggregation_pipeline, MongoQuery.project_fields,
        MongoQuery.combinator_pipeline, MongoQuery.extra_fields,
        MongoQuery.ordering, MongoQuery.low_mark, MongoQuery.high_mark,
        MongoQuery.subquery_lookup, MongoQuery.matchSegment,
        MongoQuery.projectSegment, MongoQuery.addFieldsSegment,
        MongoQuery.sortSegment, MongoQuery.skipSegment,
        MongoQuery.limitSegment, subsPipelines_eq]
  · simp only [MongoQuery.matchSegment, MongoQuery.match_mql]
    split_ifs <;> simp
  · simp only [MongoQuery.matchSegment, MongoQuery.match_mql]
    split_ifs with hsp <;> simp_all [List.isEmpty_iff]

/-! Claim C9. -/

theorem runHooksList_all_ok :
    ∀ (hs : List Hook), (∀ h ∈ hs, h.robust = false → h.ok = true) →
      ∀ c : Conn, runHooksList c hs =
        ({ c with
            executed := c.executed ++ hs.map Hook.hid,
            loggedErrors := c.loggedErrors
              ++ (hs.filter (fun h => h.robust && !h.ok)).map Hook.hid }, false) := by
  intro hs
  induction hs with
  | nil => intro _ c; cases c; simp [runHooksList]
  | cons h hs ih =>
    intro hok c
    have hh := hok h (List.mem_cons_self h hs)
    by_cases hr : h.ok
    · rw [show runHooksList c (h :: hs)
          = runHooksList { c with executed := c.executed ++ [h.hid] } hs from by
        simp [runHooksList, runHook, hr]]
      rw [ih (fun g hg => hok g (List.mem_cons_of_mem h hg)) _]
      cases c
      simp [List.filter_cons, hr]
    · have hrb : h.robust = true := by
        cases hb : h.robust
        · exact absurd (hh hb) hr
        · rfl
      have hstep : runHooksList c (h :: hs)
          = runHooksList
              { c with
                executed := c.executed ++ [h.hid]
                loggedErrors := c.loggedErrors ++ [h.hid] } hs := by
        simp [runHooksList, runHook, hr, hrb]
      rw [hstep]
      rw [ih (fun g hg => hok g (List.mem_cons_of_mem h hg)) _]
      cases c
      simp [List.filter_cons, hr, hrb]

theorem queueHooks_in_block (hs : List Hook) :
    ∀ c : Conn, c.in_atomic_block_mongo = true →
      queueHooks hs c = { c with run_on_commit := c.run_on_commit ++ hs } := by
  induction hs with
  | nil => intro c h; cases c; simp [queueHooks]
  | cons g gs ih =>
    intro c h
    rw [show queueHooks (g :: gs) c = queueHooks gs (on_commit g c) from rfl]
    rw [show on_commit g c = { c with run_on_commit := c.run_on_commit ++ [g] }
        from by simp [on_commit, h]]
    rw [ih _ (by simp [h])]
    cases c
    simp

/-- Counterexample to C9 as stated: a hook registered robust inside an
atomic scope whose body then fails.  The claim says robust hooks are still
attempted individually on the failure path; the code's rollback discards
the whole queue without attempting anything -- the executed list stays
empty (and nothing is logged), while the transaction is rolled back. -/
theorem C9_counterexample :
    (exitAtomic true true (on_commit ⟨7, true, true⟩ (enterAtomic freshConn))).executed
       = []
    ∧ (exitAtomic true true (on_commit ⟨7, true, true⟩ (enterAtomic freshConn))).loggedErrors
       = []
    ∧ (exitAtomic true true (on_commit ⟨7, true, true⟩ (enterAtomic freshConn))).run_on_commit
       = []
    ∧ (exitAtomic true true (on_commit ⟨7, true, true⟩ (enterAtomic freshConn))).trace
       = [.begin_transaction, .abort_transaction] := by decide

/-- C9 amended: when the outermost scope exits successfully the physical
transaction is committed and then all queued hooks run in enqueue order
(robust hooks that fail are logged without propagating, assuming no
non-robust hook fails); on a body failure, or when the commit itself raises
a database error, the physical transaction is rolled back and the queued
hooks are discarded entirely -- robust hooks included, none are attempted. -/
theorem C9_commit_hooks (hs : List Hook)
    (hok : ∀ h ∈ hs, h.robust = false → h.ok = true) :
    ((exitAtomic false true (queueHooks hs (enterAtomic freshConn))).trace
        = [.begin_transaction, .commit_transaction]
      ∧ (exitAtomic false true (queueHooks hs (enterAtomic freshConn))).executed
        = hs.map Hook.hid
      ∧ (exitAtomic false true (queueHooks hs (enterAtomic freshConn))).loggedErrors
        = (hs.filter (fun h => h.robust && !h.ok)).map Hook.hid
      ∧ (exitAtomic false true (queueHooks hs (enterAtomic freshConn))).run_on_commit
        = [])
    ∧ ((exitAtomic true true (queueHooks hs (enterAtomic freshConn))).trace
        = [.begin_transaction, .abort_transaction]
      ∧ (exitAtomic true true (queueHooks hs (enterAtomic freshConn))).executed = []
      ∧ (exitAtomic true true (queueHooks hs (enterAtomic freshConn))).run_on_commit
        = [])
    ∧ ((exitAtomic false false (queueHooks hs (enterAtomic freshConn))).trace
        = [.begin_transaction, .abort_transaction]
      ∧ (exitAtomic false false (queueHooks hs (enterAtomic freshConn))).executed = []
      ∧ (exitAtomic false false (queueHooks hs (enterAtomic freshConn))).run_on_commit
        = []) := by
  have henter : enterAtomic freshConn
      = (⟨true, true, 0, [], [.begin_transaction], [], []⟩ : Conn) := rfl
  have hq : queueHooks hs (enterAtomic freshConn)
      = (⟨true, true, 0, hs, [.begin_transaction], [], []⟩ : Conn) := by
    rw [henter, queueHooks_in_block hs _ rfl]
    simp
  rw [hq]
  have hrun := runHooksList_all_ok hs hok
  refine ⟨⟨?_, ?_, ?_, ?_⟩, ⟨?_, ?_, ?_⟩, ⟨?_, ?_, ?_⟩⟩ <;>
    simp [exitAtomic, commit_mongo, rollback_mongo, run_and_clear_commit_hooks,
      hrun]

/-- Witness for C9 at two concrete hooks, a failing robust one and a
succeeding non-robust one. -/
theorem C9_commit_hooks_witness :
    ((exitAtomic false true (queueHooks [⟨7, true, false⟩, ⟨8, false, true⟩]
        (enterAtomic freshConn))).trace
        = [.begin_transaction, .commit_transaction]
      ∧ (exitAtomic false true (queueHooks [⟨7, true, false⟩, ⟨8, false, true⟩]
          (enterAtomic freshConn))).executed
        = ([⟨7, true, false⟩, ⟨8, false, true⟩] : List Hook).map Hook.hid
      ∧ (exitAtomic false true (queueHooks [⟨7, true, false⟩, ⟨8, false, true⟩]
          (enterAtomic freshConn))).loggedErrors
        = (([⟨7, true, false⟩, ⟨8, false, true⟩] : List Hook).filter
            (fun h => h.robust && !h.ok)).map Hook.hid
      ∧ (exitAtomic false true (queueHooks [⟨7, true, false⟩, ⟨8, false, true⟩]
          (enterAtomic freshConn))).run_on_commit
        = [])
    ∧ ((exitAtomic true true (queueHooks [⟨7, true, false⟩, ⟨8, false, true⟩]
          (enterAtomic freshConn))).trace
        = [.begin_transaction, .abort_transaction]
      ∧ (exitAtomic true true (queueHooks [⟨7, true, false⟩, ⟨8, false, true⟩]
          (enterAtomic freshConn))).executed = []
      ∧ (exitAtomic true true (queueHooks [⟨7, true, false⟩, ⟨8, false, true⟩]
          (enterAtomic freshConn))).run_on_commit
        = [])
    ∧ ((exitAtomic false false (queueHooks [⟨7, true, false⟩, ⟨8, false, true⟩]
          (enterAtomic freshConn))).trace
        = [.begin_transaction, .abort_transaction]
      ∧ (exitAtomic false false (queueHooks [⟨7, true, false⟩, ⟨8, false, true⟩]
          (enterAtomic freshConn))).executed = []
      ∧ (exitAtomic false false (queueHooks [⟨7, true, false⟩, ⟨8, false, true⟩]
          (enterAtomic freshConn))).run_on_commit
        = []) :=
  C9_commit_hooks [⟨7, true, false⟩, ⟨8, false, true⟩] (by decide)

end DjangoMongo
